import Mathlib

/-!
Shallow embedding of the chess-lib rules engine (src/models.rs, src/fen.rs,
src/game/mod.rs) and proofs about it.

Conventions of the embedding:
- Rust i8/i64 values are modelled as Int (no arithmetic here ever overflows
  the source's integer widths on the inputs the functions are run on).
- Vec indexing is modelled with List.getD / List.set; the source panics on an
  out-of-range index while these are total, which only differs on inputs where
  the Rust program aborts.
- Result<_, E> values are modelled as Option (the error payloads are only
  human-readable messages, which no property here inspects).
- Renamings forced by the proof environment, kept 1:1 with the source:
  Square::from_notation -> Square.fromStr, Square::to_notation -> Square.toStr,
  SquareNotationOptions -> SquareStrOptions, ValidMove::notation ->
  ValidMove.san, ValidMove::from_notation -> ValidMove.fromSan,
  PartialMove -> MoveTemplate, PartialSquare -> SquareTemplate,
  and the struct fields "from"/"to" -> "fromSq"/"toSq" (keywords here).
-/

/-- models.rs: Piece. -/
inductive Piece where
  | pawn
  | rook
  | bishop
  | knight
  | queen
  | king
deriving DecidableEq, Repr

/-- models.rs: Color. -/
inductive Color where
  | white
  | black
deriving DecidableEq, Repr

/-- models.rs: Color::opposite. -/
def Color.opposite : Color → Color
  | Color.white => Color.black
  | Color.black => Color.white

/-- models.rs: Square (rank and file are i8 in the source). -/
structure Square where
  rank : Int
  file : Int
deriving DecidableEq, Repr

/-- models.rs: OccupiedSquare. -/
structure OccupiedSquare where
  piece : Piece
  color : Color
deriving DecidableEq, Repr

/-- models.rs: Board. -/
structure Board where
  squares : List (Option OccupiedSquare)
deriving DecidableEq, Repr

/-- The Position struct as constructed and consumed by fen.rs and game/mod.rs
(four castling flags, en-passant target, clocks). -/
structure Position where
  board : Board
  next_to_move : Color
  white_can_castle_king_side : Bool
  white_can_castle_queen_side : Bool
  black_can_castle_king_side : Bool
  black_can_castle_queen_side : Bool
  en_passant_square : Option Square
  half_move_clock : Int
  full_move_counter : Int
deriving DecidableEq, Repr

/-- models.rs: FILE_LABELS. -/
def fileLabels : List Char := ['a', 'b', 'c', 'd', 'e', 'f', 'g', 'h']

/-- models.rs: SquareNotationOptions. -/
inductive SquareStrOptions where
  | onlyFile
  | onlyRank
  | fileAndRank
deriving DecidableEq, Repr

/-- models.rs: Square::new — rejects out-of-range coordinates. -/
def Square.new (rank file : Int) : Option Square :=
  if file < 0 ∨ file > 7 then none
  else if rank < 0 ∨ rank > 7 then none
  else some { rank := rank, file := file }

/-- Base-10 digits of a Nat, least significant first, with enough fuel to
exhaust the number (structural recursion so that evaluation reduces). -/
def natDigitsRev : Nat → Nat → List Nat
  | 0, _ => []
  | fuel + 1, n => if n = 0 then [] else n % 10 :: natDigitsRev fuel (n / 10)

/-- Decimal digits of a Nat, most significant first (the digits produced by
Rust's to_string for a non-negative integer). -/
def natToChars (n : Nat) : List Char :=
  if n = 0 then ['0']
  else (natDigitsRev n n).reverse.map (fun d => Char.ofNat (48 + d))

/-- Decimal characters of an Int, as produced by Rust's i64::to_string. -/
def intToChars (i : Int) : List Char :=
  if i < 0 then '-' :: natToChars i.natAbs else natToChars i.toNat

/-- models.rs: Square::from_notation. Reads the first two characters (any
further characters are not examined by the source), checks the file letter is
in a..h and the second character is an ASCII digit, and then checks
rank = digit - 1 against the interval [1, 8]. -/
def Square.fromStr (s : String) : Option Square :=
  match s.toList with
  | file_label :: rank_char :: _ =>
    if file_label < 'a' ∨ 'h' < file_label then none
    else if ¬ rank_char.isDigit then none
    else
      let file : Int := ((file_label.toNat - 'a'.toNat : Nat) : Int)
      let rank : Int := ((rank_char.toNat - '0'.toNat : Nat) : Int) - 1
      if rank < 1 ∨ 8 < rank then none
      else some { rank := rank, file := file }
  | _ => none

/-- models.rs: Square::to_notation. The source indexes FILE_LABELS (panicking
out of range); here an out-of-range file yields a placeholder character, which
only differs where the Rust program aborts. -/
def Square.toStr (sq : Square) (options : SquareStrOptions) : String :=
  let file_label := fileLabels.getD sq.file.toNat ' '
  match options with
  | SquareStrOptions.onlyFile => String.mk [file_label]
  | SquareStrOptions.onlyRank => String.mk (intToChars (sq.rank + 1))
  | SquareStrOptions.fileAndRank => String.mk (file_label :: intToChars (sq.rank + 1))

/-- fen.rs: Position::occupancy_from_char. -/
def occupancyFromChar (c : Char) : Option OccupiedSquare :=
  if c = 'P' then some ⟨Piece.pawn, Color.white⟩
  else if c = 'N' then some ⟨Piece.knight, Color.white⟩
  else if c = 'B' then some ⟨Piece.bishop, Color.white⟩
  else if c = 'R' then some ⟨Piece.rook, Color.white⟩
  else if c = 'Q' then some ⟨Piece.queen, Color.white⟩
  else if c = 'K' then some ⟨Piece.king, Color.white⟩
  else if c = 'p' then some ⟨Piece.pawn, Color.black⟩
  else if c = 'n' then some ⟨Piece.knight, Color.black⟩
  else if c = 'b' then some ⟨Piece.bishop, Color.black⟩
  else if c = 'r' then some ⟨Piece.rook, Color.black⟩
  else if c = 'q' then some ⟨Piece.queen, Color.black⟩
  else if c = 'k' then some ⟨Piece.king, Color.black⟩
  else none

/-- fen.rs: Position::occupancy_to_char. -/
def occupancyToChar (o : OccupiedSquare) : Char :=
  match o with
  | ⟨Piece.pawn, Color.white⟩ => 'P'
  | ⟨Piece.knight, Color.white⟩ => 'N'
  | ⟨Piece.bishop, Color.white⟩ => 'B'
  | ⟨Piece.rook, Color.white⟩ => 'R'
  | ⟨Piece.queen, Color.white⟩ => 'Q'
  | ⟨Piece.king, Color.white⟩ => 'K'
  | ⟨Piece.pawn, Color.black⟩ => 'p'
  | ⟨Piece.knight, Color.black⟩ => 'n'
  | ⟨Piece.bishop, Color.black⟩ => 'b'
  | ⟨Piece.rook, Color.black⟩ => 'r'
  | ⟨Piece.queen, Color.black⟩ => 'q'
  | ⟨Piece.king, Color.black⟩ => 'k'

/-- fen.rs: the piece-placement loop of Position::from_fen. The loop counter i
counts board squares filled so far; a '/' is skipped only at the start of a
rank (square.file == 0, i.e. i mod 8 = 0); a digit d pushes d empty squares; a
piece letter pushes one occupied square; anything else (including a letter
occupancy_from_char rejects — the source distinguishes the two only in the
error message) fails. The exit test `64 <= i` is checked before each character
just as the Rust loop does. -/
def parseBoardChars : List Char → Nat → List (Option OccupiedSquare) →
    Option (List (Option OccupiedSquare) × List Char)
  | cs, i, acc =>
    if 64 ≤ i then some (acc, cs)
    else
      match cs with
      | [] => none
      | c :: rest =>
        if c = '/' ∧ i % 8 = 0 then parseBoardChars rest i acc
        else if c.isDigit then
          let n := c.toNat - 48
          parseBoardChars rest (i + n) (acc ++ List.replicate n none)
        else
          match occupancyFromChar c with
          | some occ => parseBoardChars rest (i + 1) (acc ++ [some occ])
          | none => none

/-- fen.rs: expecting a single specific character (the `chars.next() != Some(' ')`
checks of Position::from_fen). -/
def expectChar (c : Char) : List Char → Option (List Char)
  | x :: rest => if x = c then some rest else none
  | [] => none

/-- fen.rs: the side-to-move field of Position::from_fen. -/
def parseColorChar : List Char → Option (Color × List Char)
  | c :: rest =>
    if c = 'w' then some (Color.white, rest)
    else if c = 'b' then some (Color.black, rest)
    else none
  | [] => none

/-- fen.rs: the castling-availability loop of Position::from_fen. Consumes
characters (including the terminating space) and accumulates the four flags. -/
def parseCastlingChars : List Char → Bool → Bool → Bool → Bool →
    Option ((Bool × Bool × Bool × Bool) × List Char)
  | [], _, _, _, _ => none
  | c :: rest, wk, wq, bk, bq =>
    if c = ' ' then some ((wk, wq, bk, bq), rest)
    else if c = '-' then parseCastlingChars rest wk wq bk bq
    else if c = 'K' then parseCastlingChars rest true wq bk bq
    else if c = 'Q' then parseCastlingChars rest wk true bk bq
    else if c = 'k' then parseCastlingChars rest wk wq true bq
    else if c = 'q' then parseCastlingChars rest wk wq bk true
    else none

/-- fen.rs: the en-passant field of Position::from_fen — a letter starts a
two-character square read through Square::from_notation, '-' means none. -/
def parseEnPassantChars : List Char → Option (Option Square × List Char)
  | c :: rest =>
    if c.isAlpha then
      match rest with
      | c2 :: rest2 => (Square.fromStr (String.mk [c, c2])).map (fun sq => (some sq, rest2))
      | [] => none
    else if c = '-' then some (none, rest)
    else none
  | [] => none

/-- fen.rs: the half-move-clock loop of Position::from_fen — digits accumulated
until the terminating space (which is consumed); any other character fails. -/
def parseDigitsUntilSpace : List Char → List Char → Option (List Char × List Char)
  | [], _ => none
  | c :: rest, acc =>
    if c.isDigit then parseDigitsUntilSpace rest (acc ++ [c])
    else if c = ' ' then some (acc, rest)
    else none

/-- fen.rs: the full-move-counter loop of Position::from_fen — digits until the
end of the string; any other character fails. -/
def parseDigitsUntilEnd : List Char → List Char → Option (List Char)
  | [], acc => some acc
  | c :: rest, acc =>
    if c.isDigit then parseDigitsUntilEnd rest (acc ++ [c])
    else none

/-- Value of a most-significant-first digit-character string (Rust's
str::parse::<i64> on the all-digit strings the fen parser collects; the
source's overflow failure at > i64::MAX is not modelled). -/
def digitsToNat (cs : List Char) : Nat :=
  cs.foldl (fun a c => a * 10 + (c.toNat - 48)) 0

/-- fen.rs: parse of a collected clock field — fails exactly when no digit was
collected (parse::<i64> of an empty string fails). -/
def parseClock (cs : List Char) : Option Int :=
  if cs = [] then none else some ((digitsToNat cs : Nat) : Int)

/-- fen.rs: Position::from_fen. -/
def Position.from_fen (fen : String) : Option Position := do
  let (squares, r1) ← parseBoardChars fen.toList 0 []
  let r2 ← expectChar ' ' r1
  let (next_to_move, r3) ← parseColorChar r2
  let r4 ← expectChar ' ' r3
  let ((wk, wq, bk, bq), r5) ← parseCastlingChars r4 false false false false
  let (en_passant_square, r6) ← parseEnPassantChars r5
  let r7 ← expectChar ' ' r6
  let (halfChars, r8) ← parseDigitsUntilSpace r7 []
  let half_move_clock ← parseClock halfChars
  let fullChars ← parseDigitsUntilEnd r8 []
  let full_move_counter ← parseClock fullChars
  pure {
    board := ⟨squares⟩
    next_to_move := next_to_move
    white_can_castle_king_side := wk
    white_can_castle_queen_side := wq
    black_can_castle_king_side := bk
    black_can_castle_queen_side := bq
    en_passant_square := en_passant_square
    half_move_clock := half_move_clock
    full_move_counter := full_move_counter }

/-- fen.rs: the piece-placement emission loop of Position::to_fen. Walks the
squares with their index i, buffering a count of consecutive blanks which is
flushed (as its decimal digits) before a piece and at the end of each rank; a
'/' separates ranks except after rank 0 (the bottom rank). -/
def boardFenAux : List (Option OccupiedSquare) → Nat → Nat → List Char
  | [], _, _ => []
  | occ :: rest, i, blanks =>
    let emitted1 : List Char :=
      match occ with
      | some o => (if 0 < blanks then natToChars blanks else []) ++ [occupancyToChar o]
      | none => []
    let blanks1 : Nat := match occ with | some _ => 0 | none => blanks + 1
    let lastInRank : Bool := i % 8 = 7
    let emitted2 : List Char := if lastInRank ∧ 0 < blanks1 then natToChars blanks1 else []
    let blanks2 : Nat := if lastInRank ∧ 0 < blanks1 then 0 else blanks1
    let emitted3 : List Char := if lastInRank ∧ (7 - (i : Int) / 8) ≠ 0 then ['/'] else []
    emitted1 ++ emitted2 ++ emitted3 ++ boardFenAux rest (i + 1) blanks2

/-- fen.rs: Position::to_fen. -/
def Position.to_fen (p : Position) : String :=
  let castling : List Char :=
    (if p.white_can_castle_king_side then ['K'] else []) ++
    (if p.white_can_castle_queen_side then ['Q'] else []) ++
    (if p.black_can_castle_king_side then ['k'] else []) ++
    (if p.black_can_castle_queen_side then ['q'] else [])
  let castling := if castling = [] then ['-'] else castling
  let ep : List Char :=
    match p.en_passant_square with
    | some sq => (sq.toStr SquareStrOptions.fileAndRank).toList
    | none => ['-']
  String.mk
    (boardFenAux p.board.squares 0 0 ++
     [' ', (match p.next_to_move with | Color.white => 'w' | Color.black => 'b'), ' '] ++
     castling ++ [' '] ++ ep ++ [' '] ++
     intToChars p.half_move_clock ++ [' '] ++
     intToChars p.full_move_counter)

/-- game/mod.rs: ValidMove (field "from" renamed fromSq). -/
structure ValidMove where
  color : Color
  fromSq : Square
  toSq : Square
  piece : Piece
  takes : Option Piece
  takes_en_passant : Bool
  en_passant_square : Option Square
deriving DecidableEq, Repr

/-- game/mod.rs: PartialSquare (renamed; rank/file are i8 in the source). -/
structure SquareTemplate where
  rank : Option Int
  file : Option Int
deriving DecidableEq, Repr

/-- game/mod.rs: CheckOrMate. -/
inductive CheckOrMate where
  | check
  | mate
deriving DecidableEq, Repr

/-- game/mod.rs: CastlesDirection. -/
inductive CastlesDirection where
  | kingSide
  | queenSide
deriving DecidableEq, Repr

/-- game/mod.rs: PartialMove (renamed; field "from" renamed fromSq). -/
structure MoveTemplate where
  piece : Piece
  fromSq : Option SquareTemplate
  toSq : Square
  takes : Option Bool
  check_or_mate : Option (Option CheckOrMate)
  castles : Option (Option CastlesDirection)
deriving DecidableEq, Repr

/-- game/mod.rs: Game. -/
structure Game where
  position : Position
deriving DecidableEq, Repr

/-- game/mod.rs: Game::new. -/
def Game.new (initial_position : Position) : Game := ⟨initial_position⟩

/-- The board index `(7 - rank) * 8 + file` used throughout game/mod.rs. The
source indexes a Vec with it (panicking when out of range); toNat of the
(never actually negative for on-board squares) Int matches it elsewhere. -/
def boardIdx (sq : Square) : Nat := ((7 - sq.rank) * 8 + sq.file).toNat

/-- The square `Square { rank: 7 - i / 8, file: i % 8 }` reconstructed from a
board index in the enumeration loops of game/mod.rs. -/
def squareOfIdx (i : Nat) : Square := ⟨7 - (i : Int) / 8, (i : Int) % 8⟩

/-- game/mod.rs: Game::square_occupied. Vec indexing modelled by getD (the
source panics on an out-of-range index; on-board squares are always in range
when the board has its 64 squares). -/
def Game.square_occupied (g : Game) (square : Square) : Option OccupiedSquare :=
  g.position.board.squares.getD (boardIdx square) none

/-- game/mod.rs: Game::can_pawn_double_move. -/
def canPawnDoubleMove (square : Square) (side_to_move : Color) : Bool :=
  (side_to_move = Color.white ∧ square.rank = 1) ∨
  (side_to_move = Color.black ∧ square.rank = 6)

/-- game/mod.rs: Game::possible_pawn_moves. -/
def Game.possible_pawn_moves (g : Game) (fromSq : Square) (color : Color) : List ValidMove :=
  let direction : Int := match color with | Color.white => 1 | Color.black => -1
  let next_square := Square.new (fromSq.rank + direction) fromSq.file
  let can_move_forward : Bool :=
    match next_square with
    | some nsq => g.square_occupied nsq = none
    | none => false
  let forward_moves : List ValidMove :=
    match next_square with
    | some nsq =>
      if can_move_forward then
        [{ piece := Piece.pawn, color := color, fromSq := fromSq, toSq := nsq,
           takes := none, takes_en_passant := false, en_passant_square := none }]
      else []
    | none => []
  let double_move_square := (Square.new (fromSq.rank + 2 * direction) fromSq.file).filter
    (fun tsq => can_move_forward ∧ canPawnDoubleMove fromSq color ∧ g.square_occupied tsq = none)
  let forward_moves := forward_moves ++
    (match double_move_square with
     | some dsq =>
       [{ piece := Piece.pawn, color := color, fromSq := fromSq, toSq := dsq,
          takes := none, takes_en_passant := false, en_passant_square := next_square }]
     | none => [])
  let take_squares : List (Option Square) :=
    [Square.new (fromSq.rank + direction) (fromSq.file - 1),
     Square.new (fromSq.rank + direction) (fromSq.file + 1)]
  let take_moves : List ValidMove := take_squares.filterMap (fun osq =>
    match osq.map (fun sq => (sq, (g.square_occupied sq).filter (fun occ => occ.color ≠ color))) with
    | some (tsq, none) =>
      if g.position.en_passant_square.isSome then
        if g.position.en_passant_square = some tsq then
          some { piece := Piece.pawn, color := color, fromSq := fromSq, toSq := tsq,
                 takes := some Piece.pawn, takes_en_passant := true, en_passant_square := none }
        else none
      else none
    | some (tsq, some occupancy) =>
      some { piece := Piece.pawn, color := color, fromSq := fromSq, toSq := tsq,
             takes := some occupancy.piece, takes_en_passant := false, en_passant_square := none }
    | none => none)
  forward_moves ++ take_moves

/-- game/mod.rs: Game::possible_knight_moves. -/
def Game.possible_knight_moves (g : Game) (fromSq : Square) (color : Color) : List ValidMove :=
  let reachable : List (Option Square) :=
    [Square.new (fromSq.rank - 2) (fromSq.file - 1),
     Square.new (fromSq.rank - 2) (fromSq.file + 1),
     Square.new (fromSq.rank + 2) (fromSq.file - 1),
     Square.new (fromSq.rank + 2) (fromSq.file + 1),
     Square.new (fromSq.rank - 1) (fromSq.file - 2),
     Square.new (fromSq.rank - 1) (fromSq.file + 2),
     Square.new (fromSq.rank + 1) (fromSq.file - 2),
     Square.new (fromSq.rank + 1) (fromSq.file + 2)]
  (reachable.filterMap id).filterMap (fun tsq =>
    let occupancy := g.square_occupied tsq
    match occupancy with
    | some ⟨_, other_piece_color⟩ =>
      if other_piece_color ≠ color then
        some { piece := Piece.knight, color := color, fromSq := fromSq, toSq := tsq,
               takes := occupancy.map (fun occ => occ.piece), takes_en_passant := false,
               en_passant_square := none }
      else none
    | none =>
      some { piece := Piece.knight, color := color, fromSq := fromSq, toSq := tsq,
             takes := occupancy.map (fun occ => occ.piece), takes_en_passant := false,
             en_passant_square := none })

/-- game/mod.rs: the loop body of Game::squares_in_a_line, written with fuel.
The source loop pushes squares while Square::new accepts them; every pushed
square has both coordinates in [0, 7] and consecutive pushed squares differ by
the fixed nonzero delta, so at most 8 squares are ever pushed and fuel 64 makes
this function equal to the unbounded loop. -/
def squaresInALineAux : Nat → Option Square → Int → Int → List Square
  | 0, _, _, _ => []
  | _ + 1, none, _, _ => []
  | fuel + 1, some sq, rank_delta, file_delta =>
    sq :: squaresInALineAux fuel (Square.new (sq.rank + rank_delta) (sq.file + file_delta))
      rank_delta file_delta

/-- game/mod.rs: Game::squares_in_a_line (Game::advance_square inlined as the
Square::new call it wraps). -/
def squaresInALine (fromSq : Square) (rank_delta file_delta : Int) : List Square :=
  squaresInALineAux 64 (Square.new (fromSq.rank + rank_delta) (fromSq.file + file_delta))
    rank_delta file_delta

/-- game/mod.rs: Game::valid_moves_in_a_line — empty squares accumulate, the
first enemy square is a final capture, a friendly square stops the line. -/
def Game.valid_moves_in_a_line (g : Game) (line : List Square) (piece : Piece)
    (fromSq : Square) (color : Color) : List ValidMove :=
  match line with
  | [] => []
  | tsq :: rest =>
    let occupancy := g.square_occupied tsq
    match occupancy with
    | some ⟨_, piece_color⟩ =>
      if color ≠ piece_color then
        [{ piece := piece, color := color, fromSq := fromSq, toSq := tsq,
           takes := occupancy.map (fun occ => occ.piece), takes_en_passant := false,
           en_passant_square := none }]
      else []
    | none =>
      { piece := piece, color := color, fromSq := fromSq, toSq := tsq,
        takes := occupancy.map (fun occ => occ.piece), takes_en_passant := false,
        en_passant_square := none } :: g.valid_moves_in_a_line rest piece fromSq color

/-- game/mod.rs: Game::possible_rook_moves. -/
def Game.possible_rook_moves (g : Game) (fromSq : Square) (color : Color) : List ValidMove :=
  let lines := [squaresInALine fromSq (-1) 0, squaresInALine fromSq 1 0,
                squaresInALine fromSq 0 (-1), squaresInALine fromSq 0 1]
  lines.flatMap (fun line => g.valid_moves_in_a_line line Piece.rook fromSq color)

/-- game/mod.rs: Game::possible_queen_moves. -/
def Game.possible_queen_moves (g : Game) (fromSq : Square) (color : Color) : List ValidMove :=
  let lines := [squaresInALine fromSq (-1) 0, squaresInALine fromSq 1 0,
                squaresInALine fromSq 0 (-1), squaresInALine fromSq 0 1,
                squaresInALine fromSq (-1) (-1), squaresInALine fromSq 1 (-1),
                squaresInALine fromSq 1 1, squaresInALine fromSq (-1) 1]
  lines.flatMap (fun line => g.valid_moves_in_a_line line Piece.queen fromSq color)

/-- game/mod.rs: Game::possible_bishop_moves. -/
def Game.possible_bishop_moves (g : Game) (fromSq : Square) (color : Color) : List ValidMove :=
  let lines := [squaresInALine fromSq (-1) (-1), squaresInALine fromSq 1 (-1),
                squaresInALine fromSq 1 1, squaresInALine fromSq (-1) 1]
  lines.flatMap (fun line => g.valid_moves_in_a_line line Piece.bishop fromSq color)

/-- game/mod.rs: Game::possible_king_moves. -/
def Game.possible_king_moves (g : Game) (fromSq : Square) (color : Color) : List ValidMove :=
  let adjacent : List (Option Square) :=
    [Square.new (fromSq.rank - 1) (fromSq.file - 1),
     Square.new (fromSq.rank - 1) fromSq.file,
     Square.new (fromSq.rank - 1) (fromSq.file + 1),
     Square.new fromSq.rank (fromSq.file - 1),
     Square.new fromSq.rank (fromSq.file + 1),
     Square.new (fromSq.rank + 1) (fromSq.file - 1),
     Square.new (fromSq.rank + 1) fromSq.file,
     Square.new (fromSq.rank + 1) (fromSq.file + 1)]
  (adjacent.filterMap id).filterMap (fun tsq =>
    let occupancy := g.square_occupied tsq
    match occupancy with
    | some ⟨_, piece_color⟩ =>
      if color ≠ piece_color then
        some { piece := Piece.king, color := color, fromSq := fromSq, toSq := tsq,
               takes := occupancy.map (fun occ => occ.piece), takes_en_passant := false,
               en_passant_square := none }
      else none
    | none =>
      some { piece := Piece.king, color := color, fromSq := fromSq, toSq := tsq,
             takes := occupancy.map (fun occ => occ.piece), takes_en_passant := false,
             en_passant_square := none })

/-- game/mod.rs: Game::possible_moves_for_piece. -/
def Game.possible_moves_for_piece (g : Game) (piece : Piece) (fromSq : Square)
    (color : Color) : List ValidMove :=
  match piece with
  | Piece.pawn => g.possible_pawn_moves fromSq color
  | Piece.knight => g.possible_knight_moves fromSq color
  | Piece.rook => g.possible_rook_moves fromSq color
  | Piece.bishop => g.possible_bishop_moves fromSq color
  | Piece.queen => g.possible_queen_moves fromSq color
  | Piece.king => g.possible_king_moves fromSq color

/-- game/mod.rs: the enumeration loop of Game::valid_moves_for_color — the
pseudo-legal moves of every piece of the given color. This is exactly
valid_moves_for_color with filter_out_discover_checks = false; the source's
recursion (through make_valid_move / in_check) only ever reaches the
unfiltered branch, so defining the unfiltered list first untangles it. -/
def Game.pseudoMoves (g : Game) (for_color : Color) : List ValidMove :=
  (g.position.board.squares.enum.map (fun p =>
    match p.2 with
    | none => []
    | some occupied =>
      if occupied.color = for_color then
        g.possible_moves_for_piece occupied.piece (squareOfIdx p.1) for_color
      else [])).flatten

/-- game/mod.rs: Game::square_attacked (the source calls
valid_moves_for_color(by_color, false), which is pseudoMoves). -/
def Game.square_attacked (g : Game) (square : Square) (by_color : Color) : Option ValidMove :=
  (g.pseudoMoves by_color).find? (fun valid_move => valid_move.toSq = square)

/-- game/mod.rs: Game::in_check — locate the first (King, color) square in the
board scan, then test whether the opposite color attacks it; false when no
king is found. -/
def Game.in_check (g : Game) (color : Color) : Bool :=
  let king_square := g.position.board.squares.enum.find? (fun p =>
    match p.2 with
    | some occupancy => occupancy.piece = Piece.king ∧ occupancy.color = color
    | none => false)
  match king_square with
  | some (i, _) => (g.square_attacked (squareOfIdx i) color.opposite).isSome
  | none => false

/-- game/mod.rs: Game::make_valid_move. The source's panic when an en-passant
removal square would be off the board is modelled by the harmless out-of-range
List.set (the condition is unreachable for generated moves, whose squares are
on the board). -/
def Game.make_valid_move (g : Game) (move_to_make : ValidMove) : Game :=
  let s1 := g.position.board.squares.set (boardIdx move_to_make.fromSq) none
  let new_squares := s1.set (boardIdx move_to_make.toSq)
    (some ⟨move_to_make.piece, move_to_make.color⟩)
  let new_squares :=
    if move_to_make.takes_en_passant then
      let passing_pawn_direction : Int :=
        match move_to_make.color with | Color.white => -1 | Color.black => 1
      new_squares.set
        (boardIdx ⟨move_to_make.toSq.rank + passing_pawn_direction, move_to_make.toSq.file⟩) none
    else new_squares
  { position :=
    { board := ⟨new_squares⟩
      next_to_move := g.position.next_to_move.opposite
      white_can_castle_king_side := g.position.white_can_castle_king_side
      white_can_castle_queen_side := g.position.white_can_castle_queen_side
      black_can_castle_king_side := g.position.black_can_castle_king_side
      black_can_castle_queen_side := g.position.black_can_castle_queen_side
      en_passant_square := move_to_make.en_passant_square
      half_move_clock :=
        if move_to_make.takes.isSome ∨ move_to_make.piece = Piece.pawn then 0
        else g.position.half_move_clock + 1
      full_move_counter :=
        if move_to_make.color = Color.white then g.position.full_move_counter
        else g.position.full_move_counter + 1 } }

/-- game/mod.rs: Game::valid_moves_for_color. -/
def Game.valid_moves_for_color (g : Game) (for_color : Color)
    (filter_out_discover_checks : Bool) : List ValidMove :=
  let valid_moves := g.pseudoMoves for_color
  if filter_out_discover_checks then
    valid_moves.filter (fun valid_move => ¬ (g.make_valid_move valid_move).in_check for_color)
  else valid_moves

/-- game/mod.rs: Game::valid_moves. -/
def Game.valid_moves (g : Game) : List ValidMove :=
  g.valid_moves_for_color g.position.next_to_move true

/-- game/mod.rs: Game::move_matches (the source's early-return chain written
as one conjunction; PartialMove's check_or_mate and castles are ignored by the
source — a marked TODO). -/
def moveMatches (m : ValidMove) (template : MoveTemplate) : Bool :=
  (template.piece = m.piece) &&
  (match template.fromSq with
   | some partial_square =>
     (match partial_square.rank with | some r => r = m.fromSq.rank | none => true) &&
     (match partial_square.file with | some f => f = m.fromSq.file | none => true)
   | none => true) &&
  (template.toSq = m.toSq) &&
  (match template.takes with | some takes => m.takes.isSome = takes | none => true)

/-- game/mod.rs: Game::find_moves. -/
def Game.find_moves (g : Game) (template : MoveTemplate) : List ValidMove :=
  (g.valid_moves).filter (fun valid_move => moveMatches valid_move template)

/-- game/mod.rs: Game::in_mate. -/
def Game.in_mate (g : Game) : Bool :=
  g.in_check g.position.next_to_move ∧ g.valid_moves.length = 0

/-- game/mod.rs: ValidMove::notation — piece letter (empty for a pawn), origin
file only for a pawn capture, 'x' for a capture, then the destination square. -/
def ValidMove.san (m : ValidMove) : String :=
  let piece : String :=
    match m.piece with
    | Piece.pawn => ""
    | Piece.bishop => "B"
    | Piece.knight => "N"
    | Piece.rook => "R"
    | Piece.queen => "Q"
    | Piece.king => "K"
  let disambiguation : String :=
    if m.piece = Piece.pawn ∧ m.takes.isSome then m.fromSq.toStr SquareStrOptions.onlyFile
    else ""
  let takes : String := if m.takes.isSome then "x" else ""
  piece ++ disambiguation ++ takes ++ m.toSq.toStr SquareStrOptions.fileAndRank

/-- game/mod.rs: ValidMove::parse_piece_letter (the source uppercases the
letter before matching). -/
def parsePieceLetter (c : Char) : Option Piece :=
  match c.toUpper with
  | 'N' => some Piece.knight
  | 'P' => some Piece.pawn
  | 'B' => some Piece.bishop
  | 'R' => some Piece.rook
  | 'Q' => some Piece.queen
  | 'K' => some Piece.king
  | _ => none

/-- Character class [PNBRQK] of the move-notation regex. -/
def isPieceChar (c : Char) : Bool :=
  c = 'P' ∨ c = 'N' ∨ c = 'B' ∨ c = 'R' ∨ c = 'Q' ∨ c = 'K'

/-- Character class [a-h] of the move-notation regex. -/
def isFileChar (c : Char) : Bool := 'a' ≤ c ∧ c ≤ 'h'

/-- Character class [1-8] of the move-notation regex. -/
def isRankChar (c : Char) : Bool := '1' ≤ c ∧ c ≤ '8'

/-!
game/mod.rs resolves notation with the regex

  ^((piece [PNBRQK])? (from [a-h]?[1-8]?) (takes x)? (to [a-h][1-8]) (=promo)?)
   | (castles O-O(-O)) (check-or-mate [#+])?$

under the regex crate's leftmost-first (Perl-preference) semantics. The first
alternative is anchored at the start only (trailing characters are ignored)
and its optional pieces prefer to match; the functions below are that
backtracking search, specialised to this one pattern, returning the captures
the source then uses: the piece letter, the presence of "x", and the two
destination characters. The "from" captures are parsed but never used by the
source, the promotion capture is bound to an unused variable, and the second
(castling) alternative never produces a "to" capture, which makes
ValidMove::from_notation fail on it; so a successful parse always comes from
the first alternative.
-/

/-- The mandatory destination group [a-h][1-8] of the move-notation regex
(everything after it is unanchored and ignored). -/
def matchDest (pc : Option Char) (x : Bool) : List Char → Option (Option Char × Bool × Char × Char)
  | t1 :: t2 :: _ => if isFileChar t1 ∧ isRankChar t2 then some (pc, x, t1, t2) else none
  | _ => none

/-- The optional capture marker x?, preferring to match. -/
def matchTakes (pc : Option Char) : List Char → Option (Option Char × Bool × Char × Char)
  | cs =>
    (match cs with
     | c :: rest => if c = 'x' then matchDest pc true rest else none
     | [] => none).orElse
    (fun _ => matchDest pc false cs)

/-- The optional origin-rank hint [1-8]?, preferring to match. -/
def matchFromRank (pc : Option Char) : List Char → Option (Option Char × Bool × Char × Char)
  | cs =>
    (match cs with
     | c :: rest => if isRankChar c then matchTakes pc rest else none
     | [] => none).orElse
    (fun _ => matchTakes pc cs)

/-- The optional origin-file hint [a-h]?, preferring to match. -/
def matchFromFile (pc : Option Char) : List Char → Option (Option Char × Bool × Char × Char)
  | cs =>
    (match cs with
     | c :: rest => if isFileChar c then matchFromRank pc rest else none
     | [] => none).orElse
    (fun _ => matchFromRank pc cs)

/-- The full first alternative of the move-notation regex: optional piece
letter, then origin hints, capture marker and destination. -/
def matchAlt1 : List Char → Option (Option Char × Bool × Char × Char)
  | cs =>
    (match cs with
     | c :: rest => if isPieceChar c then matchFromFile (some c) rest else none
     | [] => none).orElse
    (fun _ => matchFromFile none cs)

/-- game/mod.rs: ValidMove::from_notation. A successful regex match through
the first alternative yields the piece letter, capture flag and destination;
the destination goes through Square::from_notation, the template is filtered
against the legal moves, and exactly one survivor is required. A string only
the castling alternative matches has no destination capture, so the source
returns Err for it just as for a regex failure — both are the final none. -/
def ValidMove.fromSan (g : Game) (s : String) : Option ValidMove :=
  match matchAlt1 s.toList with
  | some (pc, takes, t1, t2) =>
    match Square.fromStr (String.mk [t1, t2]) with
    | none => none
    | some tsq =>
      let piece := (pc.bind parsePieceLetter).getD Piece.pawn
      let valid_moves := g.find_moves
        { piece := piece, fromSq := none, toSq := tsq,
          takes := some takes, check_or_mate := some none, castles := some none }
      match valid_moves with
      | [m] => some m
      | _ => none
  | none => none

/-- The notation-to-template front half of ValidMove::from_notation, as its
own function: the match template a token parses to, when it parses. -/
def sanTemplate (s : String) : Option MoveTemplate :=
  match matchAlt1 s.toList with
  | some (pc, takes, t1, t2) =>
    (Square.fromStr (String.mk [t1, t2])).map (fun tsq =>
      { piece := (pc.bind parsePieceLetter).getD Piece.pawn, fromSq := none, toSq := tsq,
        takes := some takes, check_or_mate := some none, castles := some none })
  | none => none

/-- game/mod.rs: Game::make_move. -/
def Game.make_move (g : Game) (s : String) : Option Game :=
  (ValidMove.fromSan g s).map (fun m => g.make_valid_move m)

/-- An all-empty fallback Position (the argument of getD where the source
unwraps a parse that cannot fail). -/
def emptyPosition : Position :=
  { board := ⟨List.replicate 64 none⟩
    next_to_move := Color.white
    white_can_castle_king_side := false
    white_can_castle_queen_side := false
    black_can_castle_king_side := false
    black_can_castle_queen_side := false
    en_passant_square := none
    half_move_clock := 0
    full_move_counter := 0 }

/-- game/mod.rs: Game::standard_position (the source unwraps the parse of the
standard initial FEN; the parse succeeds, so the getD default is never used). -/
def Game.standard_position : Position :=
  (Position.from_fen "rnbqkbnr/pppppppp/8/8/8/8/PPPPPPPP/RNBQKBNR w KQkq - 0 1").getD
    emptyPosition

/-! ## Concrete fixtures used by witnesses and scenario claims -/

/-- The Game at the standard initial position. -/
def stdGame : Game := Game.new Game.standard_position

/-- The en-passant scenario fixture: the board of
8/pppppp1p/7p/8/4P3/8/PPPP1PPP/RNBQKBNR with White to move. -/
def c4Start : Game :=
  Game.new ((Position.from_fen "8/pppppp1p/7p/8/4P3/8/PPPP1PPP/RNBQKBNR w KQkq - 0 1").getD
    emptyPosition)

/-- A position holding a single white rook on d4 (board index 35), White to
move. -/
def rookPos : Position :=
  { emptyPosition with
    board := ⟨(List.replicate 64 (none : Option OccupiedSquare)).set 35
      (some ⟨Piece.rook, Color.white⟩)⟩ }

/-- The Game at rookPos. -/
def rookGame : Game := Game.new rookPos

/-- The rook move d4-d1 in rookGame. -/
def rookMoveD1 : ValidMove :=
  { color := Color.white, fromSq := ⟨3, 3⟩, toSq := ⟨0, 3⟩, piece := Piece.rook,
    takes := none, takes_en_passant := false, en_passant_square := none }

/-! ## Claims about the Move Applier (C5, C6) -/

/-- C5: make_valid_move flips the side to move, zeroes the half-move clock on
a pawn move or a capture (en-passant captures carry takes = Some) and
increments it otherwise, and bumps the full-move counter exactly after a
Black move. -/
theorem make_valid_move_counters (g : Game) (m : ValidMove) :
    (g.make_valid_move m).position.next_to_move = g.position.next_to_move.opposite ∧
    (g.make_valid_move m).position.half_move_clock =
      (if m.piece = Piece.pawn ∨ m.takes.isSome then 0 else g.position.half_move_clock + 1) ∧
    (g.make_valid_move m).position.full_move_counter =
      (if m.color = Color.black then g.position.full_move_counter + 1
       else g.position.full_move_counter) := by
  refine ⟨rfl, ?_, ?_⟩
  · show (if m.takes.isSome ∨ m.piece = Piece.pawn then 0 else g.position.half_move_clock + 1)
      = _
    by_cases h1 : m.piece = Piece.pawn <;> by_cases h2 : m.takes.isSome <;>
      simp [h1, h2]
  · show (if m.color = Color.white then g.position.full_move_counter
      else g.position.full_move_counter + 1) = _
    cases h : m.color <;> simp [h]

/-- C6: make_valid_move carries all four castling flags through unchanged and
overwrites the en-passant target with the move's own field. -/
theorem make_valid_move_flags_and_ep (g : Game) (m : ValidMove) :
    (g.make_valid_move m).position.white_can_castle_king_side =
      g.position.white_can_castle_king_side ∧
    (g.make_valid_move m).position.white_can_castle_queen_side =
      g.position.white_can_castle_queen_side ∧
    (g.make_valid_move m).position.black_can_castle_king_side =
      g.position.black_can_castle_king_side ∧
    (g.make_valid_move m).position.black_can_castle_queen_side =
      g.position.black_can_castle_queen_side ∧
    (g.make_valid_move m).position.en_passant_square = m.en_passant_square :=
  ⟨rfl, rfl, rfl, rfl, rfl⟩

/-! ## The legality filter never leaves the mover in check (C1) -/

/-- C1: every move in the legality-filtered list, applied, yields a position
where the mover's color is not in check. -/
theorem valid_moves_no_self_check (g : Game) (m : ValidMove)
    (h : m ∈ g.valid_moves) :
    (g.make_valid_move m).in_check g.position.next_to_move = false := by
  unfold Game.valid_moves Game.valid_moves_for_color at h
  simp only [if_pos] at h
  rw [List.mem_filter] at h
  simpa using h.2

/-! ## in_check with no king on the board (C10) -/

/-- C10: when no square holds a King of the color, in_check is false. -/
theorem in_check_false_of_no_king (g : Game) (c : Color)
    (h : ∀ occ ∈ g.position.board.squares, ∀ o : OccupiedSquare,
      occ = some o → ¬(o.piece = Piece.king ∧ o.color = c)) :
    g.in_check c = false := by
  unfold Game.in_check
  have hnone : (g.position.board.squares.enum.find? (fun p =>
      match p.2 with
      | some occupancy => decide (occupancy.piece = Piece.king ∧ occupancy.color = c)
      | none => false)) = none := by
    rw [List.find?_eq_none]
    rintro ⟨i, occ⟩ hp
    rw [List.mem_enum_iff_getElem?] at hp
    have hmem : occ ∈ g.position.board.squares := by
      exact List.getElem?_mem hp
    cases occ with
    | none => simp
    | some o =>
      simp only [decide_eq_true_eq]
      exact h _ hmem o rfl
  simp only [hnone]

/-! ## Square::from_notation characterization (C9) -/

/-- Char order in terms of codepoints. -/
theorem char_le_iff (a b : Char) : a ≤ b ↔ a.toNat ≤ b.toNat := by
  rw [Char.le_def]
  exact Iff.rfl

/-- Char strict order in terms of codepoints. -/
theorem char_lt_iff (a b : Char) : a < b ↔ a.toNat < b.toNat := by
  rw [Char.lt_def]
  exact Iff.rfl

/-- isDigit in terms of codepoints. -/
theorem isDigit_iff (c : Char) : c.isDigit = true ↔ 48 ≤ c.toNat ∧ c.toNat ≤ 57 := by
  simp [Char.isDigit, Char.toNat]
  exact Iff.rfl

/-- C9 counterexample: Square::from_notation accepts a three-character string
(only the first two characters are examined), so the accepted set is not
limited to two-character strings. -/
theorem fromStr_accepts_three_chars :
    Square.fromStr "e45" = some ⟨3, 4⟩ ∧ "e45".length = 3 := by
  constructor <;> rfl

/-- Codepoint of the character 0. -/
theorem char0_toNat : ('0' : Char).toNat = 48 := rfl

/-- Codepoint of the character a. -/
theorem chara_toNat : ('a' : Char).toNat = 97 := rfl

/-- Codepoint of the character h. -/
theorem charh_toNat : ('h' : Char).toNat = 104 := rfl

/-- Codepoint of the character 2. -/
theorem char2_toNat : ('2' : Char).toNat = 50 := rfl

/-- Codepoint of the character 9. -/
theorem char9_toNat : ('9' : Char).toNat = 57 := rfl

/-- Characterization of the strings Square::from_notation accepts and the
square it returns (shared helper). -/
theorem fromStr_eq_some_iff (s : String) (sq : Square) :
    Square.fromStr s = some sq ↔
      ∃ c1 c2 rest, s.toList = c1 :: c2 :: rest ∧
        'a' ≤ c1 ∧ c1 ≤ 'h' ∧ '2' ≤ c2 ∧ c2 ≤ '9' ∧
        sq.rank = (c2.toNat : Int) - 49 ∧ sq.file = (c1.toNat : Int) - 97 := by
  unfold Square.fromStr
  cases hls : s.toList with
  | nil => simp
  | cons c1 tl =>
    cases tl with
    | nil => simp
    | cons c2 rest =>
      dsimp only
      constructor
      · intro h
        by_cases hA : c1 < 'a' ∨ 'h' < c1
        · rw [if_pos hA] at h
          exact Option.noConfusion h
        · rw [if_neg hA] at h
          by_cases hB : c2.isDigit
          · rw [if_neg (by simp [hB])] at h
            by_cases hC : (((c2.toNat - '0'.toNat : Nat) : Int) - 1 < 1 ∨
                8 < ((c2.toNat - '0'.toNat : Nat) : Int) - 1)
            · rw [if_pos hC] at h
              exact Option.noConfusion h
            · rw [if_neg hC] at h
              simp only [Option.some.injEq] at h
              push_neg at hA hC
              obtain ⟨hA1, hA2⟩ := hA
              obtain ⟨hC1, hC2⟩ := hC
              rw [char_le_iff, chara_toNat] at hA1
              rw [char_le_iff, charh_toNat] at hA2
              rw [isDigit_iff] at hB
              rw [char0_toNat] at hC1 hC2
              refine ⟨c1, c2, rest, rfl, ?_, ?_, ?_, ?_, ?_, ?_⟩
              · rw [char_le_iff, chara_toNat]; omega
              · rw [char_le_iff, charh_toNat]; omega
              · rw [char_le_iff, char2_toNat]; omega
              · rw [char_le_iff, char9_toNat]; omega
              · rw [← h]
                show ((c2.toNat - 48 : Nat) : Int) - 1 = _
                omega
              · rw [← h]
                show ((c1.toNat - 97 : Nat) : Int) = _
                omega
          · rw [if_pos (by simp [hB])] at h
            exact Option.noConfusion h
      · rintro ⟨d1, d2, drest, heq, h1, h2, h3, h4, hrank, hfile⟩
        obtain ⟨rfl, rfl, rfl⟩ : c1 = d1 ∧ c2 = d2 ∧ rest = drest := by
          injection heq with e1 e2
          injection e2 with e2 e3
          exact ⟨e1, e2, e3⟩
        rw [char_le_iff, chara_toNat] at h1
        rw [char_le_iff, charh_toNat] at h2
        rw [char_le_iff, char2_toNat] at h3
        rw [char_le_iff, char9_toNat] at h4
        have hcondA : ¬ (c1 < 'a' ∨ 'h' < c1) := by
          rw [not_or, not_lt, not_lt, char_le_iff, char_le_iff, chara_toNat, charh_toNat]
          exact ⟨h1, h2⟩
        have hcondB : c2.isDigit := by
          rw [isDigit_iff]
          omega
        rw [if_neg hcondA, if_neg (by simp [hcondB])]
        rw [if_neg (by push_neg; rw [char0_toNat]; constructor <;> omega)]
        simp only [Option.some.injEq]
        cases sq
        simp only [Square.mk.injEq] at hrank hfile ⊢
        rw [char0_toNat, chara_toNat]
        constructor <;> omega

/-- C9 (amended): from_notation accepts exactly the strings with at least two
characters whose first character is in a..h and whose second is a digit in
2..9 (later characters are ignored), returning rank = digit - 1 and
file = letter - 'a'; in particular "e1" is rejected and "a9" is accepted with
rank 8, outside [0,7]. -/
theorem fromStr_spec :
    (∀ (s : String) (sq : Square),
      Square.fromStr s = some sq ↔
        ∃ c1 c2 rest, s.toList = c1 :: c2 :: rest ∧
          'a' ≤ c1 ∧ c1 ≤ 'h' ∧ '2' ≤ c2 ∧ c2 ≤ '9' ∧
          sq.rank = (c2.toNat : Int) - 49 ∧ sq.file = (c1.toNat : Int) - 97) ∧
    Square.fromStr "e1" = none ∧ Square.fromStr "a9" = some ⟨8, 0⟩ :=
  ⟨fun s sq => fromStr_eq_some_iff s sq, rfl, rfl⟩

/-! ## Concrete scenario claims (C3, C4) -/

set_option maxRecDepth 100000

/-- C3: the standard initial position yields exactly 20 legal moves for White. -/
theorem standard_position_twenty_moves : stdGame.valid_moves.length = 20 := by rfl

/-- C4: from the en-passant fixture, after "e5" and "f5" the FEN's en-passant
field is f6 (the full FEN is asserted, and its fourth space-separated field
extracted), and the diagonal pawn capture onto f6 empties f5 while f6 holds
the capturing white pawn. -/
theorem en_passant_scenario :
    ((c4Start.make_move "e5").bind (fun g => g.make_move "f5")).map
      (fun g => g.position.to_fen) =
      some "8/ppppp2p/7p/4Pp2/8/8/PPPP1PPP/RNBQKBNR w KQkq f6 0 2" ∧
    ((c4Start.make_move "e5").bind (fun g => g.make_move "f5")).map
      (fun g => g.position.en_passant_square) = some (some ⟨5, 5⟩) ∧
    Square.toStr ⟨5, 5⟩ SquareStrOptions.fileAndRank = "f6" ∧
    (((c4Start.make_move "e5").bind (fun g => g.make_move "f5")).bind
      (fun g => g.make_move "exf6")).map
      (fun g => (g.square_occupied ⟨4, 5⟩, g.square_occupied ⟨5, 5⟩)) =
      some (none, some ⟨Piece.pawn, Color.white⟩) := by
  refine ⟨by rfl, by rfl, by rfl, by rfl⟩

/-- Witness for C1 at a concrete input: the rook move d4-d1 is in rookGame's
legal moves and applying it leaves White not in check. -/
theorem valid_moves_no_self_check_witness :
    rookMoveD1 ∈ rookGame.valid_moves ∧
    (rookGame.make_valid_move rookMoveD1).in_check rookGame.position.next_to_move = false :=
  ⟨by decide, valid_moves_no_self_check rookGame rookMoveD1 (by decide)⟩

/-- Witness for C10 at a concrete input: the empty board holds no white king
and in_check is false there. -/
theorem in_check_false_of_no_king_witness :
    (∀ occ ∈ (Game.new emptyPosition).position.board.squares, ∀ o : OccupiedSquare,
      occ = some o → ¬(o.piece = Piece.king ∧ o.color = Color.white)) ∧
    (Game.new emptyPosition).in_check Color.white = false :=
  ⟨by decide, in_check_false_of_no_king (Game.new emptyPosition) Color.white (by decide)⟩

/-! ## Notation resolution: success iff the parsed template matches exactly
one legal move (C7) -/

/-- from_notation succeeds exactly when the parsed template filters the legal
moves down to a single one (shared helper). -/
theorem fromSan_eq_some_iff (g : Game) (s : String) (m : ValidMove) :
    ValidMove.fromSan g s = some m ↔
    ∃ t, sanTemplate s = some t ∧ g.find_moves t = [m] := by
  unfold ValidMove.fromSan sanTemplate
  cases hA : matchAlt1 s.toList with
  | none => simp
  | some cap =>
    obtain ⟨pc, takes, t1, t2⟩ := cap
    dsimp only
    cases hSq : Square.fromStr (String.mk [t1, t2]) with
    | none => simp
    | some tsq =>
      simp only [Option.map_some', Option.some.injEq]
      constructor
      · intro h
        rcases hms : g.find_moves
          { piece := (pc.bind parsePieceLetter).getD Piece.pawn, fromSq := none, toSq := tsq,
            takes := some takes, check_or_mate := some none, castles := some none } with
          _ | ⟨m1, _ | ⟨m2, rest⟩⟩ <;> rw [hms] at h
        · exact Option.noConfusion h
        · injection h with h
          subst h
          exact ⟨_, rfl, hms⟩
        · exact Option.noConfusion h
      · rintro ⟨t, rfl, hfm⟩
        rw [hfm]

/-- C7: from_notation returns Ok(m) exactly when the token parses to a match
template (piece, destination, capture-flag) and filtering the legal-move list
by that template leaves exactly m; zero or several matches (or a parse
failure) give the undifferentiated error. -/
theorem fromSan_ok_iff (g : Game) (s : String) (m : ValidMove) :
    ValidMove.fromSan g s = some m ↔
    ∃ t, sanTemplate s = some t ∧ g.find_moves t = [m] :=
  fromSan_eq_some_iff g s m

/-! ## Shape of generated moves (supporting C8) -/

/-- A square with both coordinates on the board. -/
def onBoard (sq : Square) : Prop :=
  0 ≤ sq.rank ∧ sq.rank ≤ 7 ∧ 0 ≤ sq.file ∧ sq.file ≤ 7

/-- Square::new only succeeds on in-range coordinates and returns them. -/
theorem Square.new_eq_some {r f : Int} {sq : Square} (h : Square.new r f = some sq) :
    sq = ⟨r, f⟩ ∧ onBoard sq := by
  unfold Square.new at h
  by_cases h1 : f < 0 ∨ f > 7
  · rw [if_pos h1] at h
    exact Option.noConfusion h
  · rw [if_neg h1] at h
    by_cases h2 : r < 0 ∨ r > 7
    · rw [if_pos h2] at h
      exact Option.noConfusion h
    · rw [if_neg h2] at h
      injection h with h
      subst h
      push_neg at h1 h2
      exact ⟨rfl, h2.1, h2.2, h1.1, h1.2⟩

/-- Every square a ray pushes is on the board (they all come out of
Square.new). -/
theorem squaresInALineAux_onBoard :
    ∀ (fuel : Nat) (r f rd fd : Int) (sq : Square),
      sq ∈ squaresInALineAux fuel (Square.new r f) rd fd → onBoard sq := by
  intro fuel
  induction fuel with
  | zero =>
    intro r f rd fd sq h
    cases hn : Square.new r f <;> rw [hn] at h <;> exact absurd h (List.not_mem_nil sq)
  | succ n ih =>
    intro r f rd fd sq h
    cases hn : Square.new r f with
    | none =>
      rw [hn] at h
      exact absurd h (List.not_mem_nil sq)
    | some sq0 =>
      rw [hn] at h
      rcases List.mem_cons.mp h with h | h
      · subst h
        exact (Square.new_eq_some hn).2
      · exact ih (sq0.rank + rd) (sq0.file + fd) rd fd sq h

/-- Moves produced along a ray target squares of the ray and keep the given
origin and piece. -/
theorem valid_moves_in_a_line_shape (g : Game) (line : List Square) (p : Piece)
    (fr : Square) (c : Color) (m : ValidMove)
    (h : m ∈ g.valid_moves_in_a_line line p fr c) :
    m.toSq ∈ line ∧ m.fromSq = fr := by
  induction line with
  | nil => exact absurd h (List.not_mem_nil m)
  | cons tsq rest ih =>
    rw [Game.valid_moves_in_a_line] at h
    cases hocc : g.square_occupied tsq with
    | some occ =>
      rw [hocc] at h
      obtain ⟨pc, cc⟩ := occ
      dsimp only at h
      by_cases hc : c ≠ cc
      · rw [if_pos hc] at h
        rcases List.mem_cons.mp h with h | h
        · subst h
          exact ⟨List.mem_cons_self _ _, rfl⟩
        · exact absurd h (List.not_mem_nil m)
      · rw [if_neg hc] at h
        exact absurd h (List.not_mem_nil m)
    | none =>
      rw [hocc] at h
      rcases List.mem_cons.mp h with h | h
      · subst h
        exact ⟨List.mem_cons_self _ _, rfl⟩
      · obtain ⟨h1, h2⟩ := ih h
        exact ⟨List.mem_cons_of_mem _ h1, h2⟩

/-- Knight moves target on-board squares and keep their origin. -/
theorem possible_knight_moves_shape (g : Game) (fr : Square) (c : Color) (m : ValidMove)
    (h : m ∈ g.possible_knight_moves fr c) :
    onBoard m.toSq ∧ m.fromSq = fr := by
  unfold Game.possible_knight_moves at h
  rw [List.mem_filterMap] at h
  obtain ⟨tsq, htsq, hf⟩ := h
  rw [List.mem_filterMap] at htsq
  obtain ⟨osq, hosq, hid⟩ := htsq
  have hboard : onBoard tsq := by
    simp only [List.mem_cons, List.not_mem_nil, or_false] at hosq
    rcases hosq with rfl | rfl | rfl | rfl | rfl | rfl | rfl | rfl <;>
      exact (Square.new_eq_some hid).2
  cases hocc : g.square_occupied tsq with
  | some occ =>
    rw [hocc] at hf
    obtain ⟨pc, cc⟩ := occ
    dsimp only at hf
    by_cases hc : cc ≠ c
    · rw [if_pos hc] at hf
      injection hf with hf
      subst hf
      exact ⟨hboard, rfl⟩
    · rw [if_neg hc] at hf
      exact Option.noConfusion hf
  | none =>
    rw [hocc] at hf
    injection hf with hf
    subst hf
    exact ⟨hboard, rfl⟩

/-- King moves target on-board squares and keep their origin. -/
theorem possible_king_moves_shape (g : Game) (fr : Square) (c : Color) (m : ValidMove)
    (h : m ∈ g.possible_king_moves fr c) :
    onBoard m.toSq ∧ m.fromSq = fr := by
  unfold Game.possible_king_moves at h
  rw [List.mem_filterMap] at h
  obtain ⟨tsq, htsq, hf⟩ := h
  rw [List.mem_filterMap] at htsq
  obtain ⟨osq, hosq, hid⟩ := htsq
  have hboard : onBoard tsq := by
    simp only [List.mem_cons, List.not_mem_nil, or_false] at hosq
    rcases hosq with rfl | rfl | rfl | rfl | rfl | rfl | rfl | rfl <;>
      exact (Square.new_eq_some hid).2
  cases hocc : g.square_occupied tsq with
  | some occ =>
    rw [hocc] at hf
    obtain ⟨pc, cc⟩ := occ
    dsimp only at hf
    by_cases hc : c ≠ cc
    · rw [if_pos hc] at hf
      injection hf with hf
      subst hf
      exact ⟨hboard, rfl⟩
    · rw [if_neg hc] at hf
      exact Option.noConfusion hf
  | none =>
    rw [hocc] at hf
    injection hf with hf
    subst hf
    exact ⟨hboard, rfl⟩

/-- Rook moves target on-board squares and keep their origin. -/
theorem possible_rook_moves_shape (g : Game) (fr : Square) (c : Color) (m : ValidMove)
    (h : m ∈ g.possible_rook_moves fr c) :
    onBoard m.toSq ∧ m.fromSq = fr := by
  unfold Game.possible_rook_moves at h
  rw [List.mem_flatMap] at h
  obtain ⟨line, hline, hm⟩ := h
  obtain ⟨h1, h2⟩ := valid_moves_in_a_line_shape g line Piece.rook fr c m hm
  refine ⟨?_, h2⟩
  simp only [List.mem_cons, List.not_mem_nil, or_false] at hline
  rcases hline with rfl | rfl | rfl | rfl <;>
    exact squaresInALineAux_onBoard 64 _ _ _ _ m.toSq h1

/-- Bishop moves target on-board squares and keep their origin. -/
theorem possible_bishop_moves_shape (g : Game) (fr : Square) (c : Color) (m : ValidMove)
    (h : m ∈ g.possible_bishop_moves fr c) :
    onBoard m.toSq ∧ m.fromSq = fr := by
  unfold Game.possible_bishop_moves at h
  rw [List.mem_flatMap] at h
  obtain ⟨line, hline, hm⟩ := h
  obtain ⟨h1, h2⟩ := valid_moves_in_a_line_shape g line Piece.bishop fr c m hm
  refine ⟨?_, h2⟩
  simp only [List.mem_cons, List.not_mem_nil, or_false] at hline
  rcases hline with rfl | rfl | rfl | rfl <;>
    exact squaresInALineAux_onBoard 64 _ _ _ _ m.toSq h1

/-- Queen moves target on-board squares and keep their origin. -/
theorem possible_queen_moves_shape (g : Game) (fr : Square) (c : Color) (m : ValidMove)
    (h : m ∈ g.possible_queen_moves fr c) :
    onBoard m.toSq ∧ m.fromSq = fr := by
  unfold Game.possible_queen_moves at h
  rw [List.mem_flatMap] at h
  obtain ⟨line, hline, hm⟩ := h
  obtain ⟨h1, h2⟩ := valid_moves_in_a_line_shape g line Piece.queen fr c m hm
  refine ⟨?_, h2⟩
  simp only [List.mem_cons, List.not_mem_nil, or_false] at hline
  rcases hline with rfl | rfl | rfl | rfl | rfl | rfl | rfl | rfl <;>
    exact squaresInALineAux_onBoard 64 _ _ _ _ m.toSq h1

/-- Pawn moves target on-board squares and keep their origin. -/
theorem possible_pawn_moves_shape (g : Game) (fr : Square) (c : Color) (m : ValidMove)
    (h : m ∈ g.possible_pawn_moves fr c) :
    onBoard m.toSq ∧ m.fromSq = fr := by
  unfold Game.possible_pawn_moves at h
  dsimp only at h
  rw [List.mem_append, List.mem_append] at h
  rcases h with (h | h) | h
  · split at h
    · rename_i nsq heq
      split at h
      · rcases List.mem_singleton.mp h with rfl
        exact ⟨(Square.new_eq_some heq).2, rfl⟩
      · exact absurd h (List.not_mem_nil m)
    · exact absurd h (List.not_mem_nil m)
  · split at h
    · rename_i dsq heq
      rcases List.mem_singleton.mp h with rfl
      rw [Option.filter_eq_some] at heq
      exact ⟨(Square.new_eq_some heq.1).2, rfl⟩
    · exact absurd h (List.not_mem_nil m)
  · rw [List.mem_filterMap] at h
    obtain ⟨osq, hosq, hf⟩ := h
    simp only [List.mem_cons, List.not_mem_nil, or_false] at hosq
    rcases hosq with rfl | rfl <;>
    · cases hsn : Square.new _ _
      all_goals rw [hsn] at hf
      · exact Option.noConfusion hf
      · rename_i tsq
        dsimp only [Option.map_some'] at hf
        split at hf
        · rename_i tsq2 heq
          simp only [Option.some.injEq, Prod.mk.injEq] at heq
          obtain ⟨rfl, -⟩ := heq
          split at hf
          · split at hf
            · injection hf with hf
              subst hf
              exact ⟨(Square.new_eq_some hsn).2, rfl⟩
            · exact Option.noConfusion hf
          · exact Option.noConfusion hf
        · rename_i tsq2 occ heq
          simp only [Option.some.injEq, Prod.mk.injEq] at heq
          obtain ⟨rfl, -⟩ := heq
          injection hf with hf
          subst hf
          exact ⟨(Square.new_eq_some hsn).2, rfl⟩
        · exact Option.noConfusion hf

/-- Any generated pseudo-legal move has an on-board destination and an origin
file in [0,7] (the origin file is the board-scan index mod 8). -/
theorem pseudoMoves_shape (g : Game) (c : Color) (m : ValidMove)
    (h : m ∈ g.pseudoMoves c) :
    onBoard m.toSq ∧ 0 ≤ m.fromSq.file ∧ m.fromSq.file ≤ 7 := by
  unfold Game.pseudoMoves at h
  rw [List.mem_flatten] at h
  obtain ⟨l, hl, hm⟩ := h
  rw [List.mem_map] at hl
  obtain ⟨p, hp, rfl⟩ := hl
  cases hocc : p.2 with
  | none =>
    rw [hocc] at hm
    exact absurd hm (List.not_mem_nil m)
  | some occ =>
    rw [hocc] at hm
    dsimp only at hm
    by_cases hc : occ.color = c
    · rw [if_pos hc] at hm
      have hfile : 0 ≤ (squareOfIdx p.1).file ∧ (squareOfIdx p.1).file ≤ 7 := by
        unfold squareOfIdx
        dsimp only
        constructor
        · exact Int.emod_nonneg _ (by omega)
        · have := Int.emod_lt_of_pos (p.1 : Int) (show (0 : Int) < 8 by omega)
          omega
      have hshape : onBoard m.toSq ∧ m.fromSq = squareOfIdx p.1 := by
        cases hpc : occ.piece <;> rw [hpc] at hm <;>
          unfold Game.possible_moves_for_piece at hm <;> dsimp only at hm
        · exact possible_pawn_moves_shape g _ c m hm
        · exact possible_rook_moves_shape g _ c m hm
        · exact possible_bishop_moves_shape g _ c m hm
        · exact possible_knight_moves_shape g _ c m hm
        · exact possible_queen_moves_shape g _ c m hm
        · exact possible_king_moves_shape g _ c m hm
      refine ⟨hshape.1, ?_, ?_⟩ <;> rw [hshape.2] <;> [exact hfile.1; exact hfile.2]
    · rw [if_neg hc] at hm
      exact absurd hm (List.not_mem_nil m)

/-- The legality-filtered moves are among the pseudo-legal ones. -/
theorem valid_moves_subset_pseudo (g : Game) (m : ValidMove)
    (h : m ∈ g.valid_moves) : m ∈ g.pseudoMoves g.position.next_to_move := by
  unfold Game.valid_moves Game.valid_moves_for_color at h
  simp only [if_pos] at h
  exact (List.mem_filter.mp h).1

/-! ## Notation round trip (C8) -/

/-- The match template a move's own notation denotes: its piece, its
destination, and its capture flag (origin hints are never produced). -/
def sanTemplateOf (m : ValidMove) : MoveTemplate :=
  { piece := m.piece, fromSq := none, toSq := m.toSq,
    takes := some m.takes.isSome, check_or_mate := some none, castles := some none }

/-- Characters of a printed destination square (rank at least 1 so the rank
digit is at least 2, which Square::from_notation accepts back). -/
theorem destChars (sq : Square) (hr1 : 1 ≤ sq.rank) (hr7 : sq.rank ≤ 7)
    (hf0 : 0 ≤ sq.file) (hf7 : sq.file ≤ 7) :
    ∃ cf cr, (sq.toStr SquareStrOptions.fileAndRank).toList = [cf, cr] ∧
      isPieceChar cf = false ∧ isFileChar cf = true ∧ isRankChar cf = false ∧ ¬ cf = 'x' ∧
      isRankChar cr = true ∧ ¬ cr = 'x' ∧
      Square.fromStr (String.mk [cf, cr]) = some sq := by
  obtain ⟨r, f⟩ := sq
  dsimp only at *
  interval_cases r <;> interval_cases f <;>
    exact ⟨_, _, rfl, by decide, by decide, by decide, by decide, by decide, by decide,
      by decide⟩

/-- The file-label character of a square (FILE_LABELS indexing as a function). -/
def fileCharOf (f : Int) : Char := fileLabels.getD f.toNat ' '

/-- Character of a printed origin file (the pawn-capture disambiguation). -/
theorem onlyFileChars (sq : Square) (hf0 : 0 ≤ sq.file) (hf7 : sq.file ≤ 7) :
    (sq.toStr SquareStrOptions.onlyFile).toList = [fileCharOf sq.file] ∧
      isPieceChar (fileCharOf sq.file) = false ∧ isFileChar (fileCharOf sq.file) = true ∧
      isRankChar (fileCharOf sq.file) = false ∧ ¬ fileCharOf sq.file = 'x' := by
  obtain ⟨r, f⟩ := sq
  dsimp only at *
  refine ⟨rfl, ?_, ?_, ?_, ?_⟩ <;> (interval_cases f <;> decide)

/-- The letter x is not a rank character. -/
theorem isRankChar_x : isRankChar 'x' = false := by decide

/-- The letter x is not a file character. -/
theorem isFileChar_x : isFileChar 'x' = false := by decide

/-- The notation matcher on a bare destination square. -/
theorem matchAlt1_pawn_quiet (cf cr : Char) (h1 : isPieceChar cf = false)
    (h2 : isFileChar cf = true) (h3 : isRankChar cf = false) (h4 : ¬ cf = 'x')
    (h5 : isRankChar cr = true) (h6 : ¬ cr = 'x') :
    matchAlt1 [cf, cr] = some (none, false, cf, cr) := by
  simp [matchAlt1, matchFromFile, matchFromRank, matchTakes, matchDest,
    h1, h2, h3, h4, h5, h6, Option.orElse]

/-- The notation matcher on a pawn capture: origin file, x, destination. -/
theorem matchAlt1_pawn_capture (ff cf cr : Char) (g1 : isPieceChar ff = false)
    (g2 : isFileChar ff = true) (g3 : isRankChar ff = false) (g4 : ¬ ff = 'x')
    (h2 : isFileChar cf = true) (h5 : isRankChar cr = true) :
    matchAlt1 [ff, 'x', cf, cr] = some (none, true, cf, cr) := by
  simp [matchAlt1, matchFromFile, matchFromRank, matchTakes, matchDest,
    g1, g2, g3, g4, h2, h5, isRankChar_x, isFileChar_x, Option.orElse]

/-- The notation matcher on a piece letter followed by a destination. -/
theorem matchAlt1_piece_quiet (pc cf cr : Char) (hp : isPieceChar pc = true)
    (h2 : isFileChar cf = true) (h3 : isRankChar cf = false) (h4 : ¬ cf = 'x')
    (h5 : isRankChar cr = true) (h6 : ¬ cr = 'x') :
    matchAlt1 [pc, cf, cr] = some (some pc, false, cf, cr) := by
  simp [matchAlt1, matchFromFile, matchFromRank, matchTakes, matchDest,
    hp, h2, h3, h4, h5, h6, Option.orElse]

/-- The notation matcher on a piece letter, x, and a destination. -/
theorem matchAlt1_piece_capture (pc cf cr : Char) (hp : isPieceChar pc = true)
    (h2 : isFileChar cf = true) (h5 : isRankChar cr = true) :
    matchAlt1 [pc, 'x', cf, cr] = some (some pc, true, cf, cr) := by
  simp [matchAlt1, matchFromFile, matchFromRank, matchTakes, matchDest,
    hp, h2, h5, isRankChar_x, isFileChar_x, Option.orElse]

/-- String concatenation concatenates the character lists. -/
theorem toList_append (a b : String) : (a ++ b).toList = a.toList ++ b.toList :=
  String.data_append a b

/-- The characters of a move's notation: piece letter, pawn-capture origin
file, capture marker, destination. -/
theorem san_toList (m : ValidMove) :
    (m.san).toList =
      (match m.piece with
        | Piece.pawn => []
        | Piece.bishop => ['B']
        | Piece.knight => ['N']
        | Piece.rook => ['R']
        | Piece.queen => ['Q']
        | Piece.king => ['K']) ++
      (if m.piece = Piece.pawn ∧ m.takes.isSome then
        (m.fromSq.toStr SquareStrOptions.onlyFile).toList else []) ++
      (if m.takes.isSome then ['x'] else []) ++
      (m.toSq.toStr SquareStrOptions.fileAndRank).toList := by
  unfold ValidMove.san
  cases hp : m.piece <;> cases ht : m.takes <;> rfl

/-- A legal move's own notation parses back to exactly the template carrying
the move's piece, destination and capture flag, provided the destination rank
is at least 1 (rank-0 destinations print digit 1, which
Square::from_notation rejects) and the squares are in printable range. -/
theorem sanTemplate_of_move (m : ValidMove)
    (hto : onBoard m.toSq) (hrank1 : 1 ≤ m.toSq.rank)
    (hf0 : 0 ≤ m.fromSq.file) (hf7 : m.fromSq.file ≤ 7) :
    sanTemplate m.san = some (sanTemplateOf m) := by
  obtain ⟨hr0, hr7, htf0, htf7⟩ := hto
  obtain ⟨cf, cr, hlist, b1, b2, b3, b4, b5, b6, hback⟩ :=
    destChars m.toSq hrank1 hr7 htf0 htf7
  obtain ⟨hfl, f1, f2, f3, f4⟩ := onlyFileChars m.fromSq hf0 hf7
  unfold sanTemplate sanTemplateOf
  rw [san_toList]
  cases hp : m.piece <;> cases ht : m.takes
  case pawn.none =>
    rw [if_neg (by simp), if_neg (by simp)]
    simp only [List.nil_append]
    rw [hlist, matchAlt1_pawn_quiet cf cr b1 b2 b3 b4 b5 b6]
    dsimp only
    rw [hback]
    rfl
  case pawn.some t =>
    rw [if_pos (show Piece.pawn = Piece.pawn ∧ (some t).isSome = true by simp), if_pos (show (some t : Option Piece).isSome = true by simp)]
    simp only [List.nil_append]
    rw [hfl, hlist]
    rw [show [fileCharOf m.fromSq.file] ++ ['x'] ++ [cf, cr] =
      [fileCharOf m.fromSq.file, 'x', cf, cr] from rfl]
    rw [matchAlt1_pawn_capture (fileCharOf m.fromSq.file) cf cr f1 f2 f3 f4 b2 b5]
    dsimp only
    rw [hback]
    rfl
  case rook.none =>
    rw [if_neg (by simp), if_neg (by simp)]
    simp only [List.append_nil, List.nil_append]
    rw [hlist, List.singleton_append,
      matchAlt1_piece_quiet 'R' cf cr (by decide) b2 b3 b4 b5 b6]
    dsimp only
    rw [hback]
    rfl
  case rook.some t =>
    rw [if_neg (by simp), if_pos (show (some t : Option Piece).isSome = true by simp)]
    simp only [List.append_nil, List.nil_append]
    rw [hlist]
    rw [show (['R'] ++ ['x']) ++ [cf, cr] = ['R', 'x', cf, cr] from rfl]
    rw [matchAlt1_piece_capture 'R' cf cr (by decide) b2 b5]
    dsimp only
    rw [hback]
    rfl
  case bishop.none =>
    rw [if_neg (by simp), if_neg (by simp)]
    simp only [List.append_nil, List.nil_append]
    rw [hlist, List.singleton_append,
      matchAlt1_piece_quiet 'B' cf cr (by decide) b2 b3 b4 b5 b6]
    dsimp only
    rw [hback]
    rfl
  case bishop.some t =>
    rw [if_neg (by simp), if_pos (show (some t : Option Piece).isSome = true by simp)]
    simp only [List.append_nil, List.nil_append]
    rw [hlist]
    rw [show (['B'] ++ ['x']) ++ [cf, cr] = ['B', 'x', cf, cr] from rfl]
    rw [matchAlt1_piece_capture 'B' cf cr (by decide) b2 b5]
    dsimp only
    rw [hback]
    rfl
  case knight.none =>
    rw [if_neg (by simp), if_neg (by simp)]
    simp only [List.append_nil, List.nil_append]
    rw [hlist, List.singleton_append,
      matchAlt1_piece_quiet 'N' cf cr (by decide) b2 b3 b4 b5 b6]
    dsimp only
    rw [hback]
    rfl
  case knight.some t =>
    rw [if_neg (by simp), if_pos (show (some t : Option Piece).isSome = true by simp)]
    simp only [List.append_nil, List.nil_append]
    rw [hlist]
    rw [show (['N'] ++ ['x']) ++ [cf, cr] = ['N', 'x', cf, cr] from rfl]
    rw [matchAlt1_piece_capture 'N' cf cr (by decide) b2 b5]
    dsimp only
    rw [hback]
    rfl
  case queen.none =>
    rw [if_neg (by simp), if_neg (by simp)]
    simp only [List.append_nil, List.nil_append]
    rw [hlist, List.singleton_append,
      matchAlt1_piece_quiet 'Q' cf cr (by decide) b2 b3 b4 b5 b6]
    dsimp only
    rw [hback]
    rfl
  case queen.some t =>
    rw [if_neg (by simp), if_pos (show (some t : Option Piece).isSome = true by simp)]
    simp only [List.append_nil, List.nil_append]
    rw [hlist]
    rw [show (['Q'] ++ ['x']) ++ [cf, cr] = ['Q', 'x', cf, cr] from rfl]
    rw [matchAlt1_piece_capture 'Q' cf cr (by decide) b2 b5]
    dsimp only
    rw [hback]
    rfl
  case king.none =>
    rw [if_neg (by simp), if_neg (by simp)]
    simp only [List.append_nil, List.nil_append]
    rw [hlist, List.singleton_append,
      matchAlt1_piece_quiet 'K' cf cr (by decide) b2 b3 b4 b5 b6]
    dsimp only
    rw [hback]
    rfl
  case king.some t =>
    rw [if_neg (by simp), if_pos (show (some t : Option Piece).isSome = true by simp)]
    simp only [List.append_nil, List.nil_append]
    rw [hlist]
    rw [show (['K'] ++ ['x']) ++ [cf, cr] = ['K', 'x', cf, cr] from rfl]
    rw [matchAlt1_piece_capture 'K' cf cr (by decide) b2 b5]
    dsimp only
    rw [hback]
    rfl

/-- The rook move d4-d3 in rookGame. -/
def rookMoveD3 : ValidMove :=
  { color := Color.white, fromSq := ⟨3, 3⟩, toSq := ⟨2, 3⟩, piece := Piece.rook,
    takes := none, takes_en_passant := false, en_passant_square := none }

/-- C8 counterexample: the legal rook move d4-d1 serializes to "Rd1" and is
the unique legal move matching that notation's piece, destination and capture
flag, yet from_notation fails on "Rd1" (its destination rank digit 1 is
rejected by Square::from_notation). -/
theorem san_round_trip_fails_on_rank_one :
    rookMoveD1 ∈ rookGame.valid_moves ∧
    rookMoveD1.san = "Rd1" ∧
    rookGame.find_moves (sanTemplateOf rookMoveD1) = [rookMoveD1] ∧
    ValidMove.fromSan rookGame "Rd1" = none := by
  refine ⟨by decide, by rfl, by decide, by rfl⟩

/-- C8 (amended): for every legal move m whose destination is not on rank 1
(0-based rank at least 1), if m is the unique legal move matching its own
notation's piece, destination and capture flag, then resolving m's notation
returns m itself (same origin, destination and piece). -/
theorem san_round_trip (g : Game) (m : ValidMove)
    (hmem : m ∈ g.valid_moves) (hrank : 1 ≤ m.toSq.rank)
    (huniq : g.find_moves (sanTemplateOf m) = [m]) :
    ValidMove.fromSan g (m.san) = some m := by
  have hp := valid_moves_subset_pseudo g m hmem
  obtain ⟨hon, hf0, hf7⟩ := pseudoMoves_shape g _ m hp
  exact (fromSan_eq_some_iff g m.san m).mpr
    ⟨sanTemplateOf m, sanTemplate_of_move m hon hrank hf0 hf7, huniq⟩

/-- Witness for C8 (amended) at a concrete input: the rook move d4-d3. -/
theorem san_round_trip_witness :
    (rookMoveD3 ∈ rookGame.valid_moves ∧ 1 ≤ rookMoveD3.toSq.rank ∧
     rookGame.find_moves (sanTemplateOf rookMoveD3) = [rookMoveD3]) ∧
    ValidMove.fromSan rookGame (rookMoveD3.san) = some rookMoveD3 :=
  ⟨⟨by decide, by decide, by decide⟩,
    san_round_trip rookGame rookMoveD3 (by decide) (by decide) (by decide)⟩

/-! ## FEN round trip (C2): decimal digits -/

/-- Char.ofNat below the surrogate range reads back its codepoint. -/
theorem char_ofNat_toNat (n : Nat) (h : n < 55296) : (Char.ofNat n).toNat = n := by
  have hv : n < 55296 ∨ 57343 < n ∧ n < 1114112 := Or.inl h
  simp [Char.ofNat, hv, Char.ofNatAux, Char.toNat, UInt32.toNat, BitVec.toNat_ofNatLt]

/-- With enough fuel, natDigitsRev computes Nat.digits base 10. -/
theorem natDigitsRev_eq_digits :
    ∀ (fuel n : Nat), n ≤ fuel → natDigitsRev fuel n = Nat.digits 10 n := by
  intro fuel
  induction fuel with
  | zero =>
    intro n h
    interval_cases n
    simp [natDigitsRev, Nat.digits_zero]
  | succ k ih =>
    intro n h
    by_cases hn : n = 0
    · subst hn
      simp [natDigitsRev, Nat.digits_zero]
    · rw [natDigitsRev, if_neg hn, Nat.digits_def' (by omega : 2 ≤ 10) (by omega : 0 < n),
        ih (n / 10) (by omega)]

/-- natToChars via Nat.digits. -/
theorem natToChars_eq (n : Nat) :
    natToChars n =
      (if n = 0 then ['0']
       else (Nat.digits 10 n).reverse.map (fun d => Char.ofNat (48 + d))) := by
  unfold natToChars
  by_cases hn : n = 0
  · simp [hn]
  · rw [if_neg hn, if_neg hn, natDigitsRev_eq_digits n n le_rfl]

/-- A one-digit number prints as its single digit character. -/
theorem natToChars_single (n : Nat) (h1 : 0 < n) (h2 : n < 10) :
    natToChars n = [Char.ofNat (48 + n)] := by
  rw [natToChars_eq, if_neg (by omega)]
  rw [Nat.digits_def' (by omega : 2 ≤ 10) h1]
  rw [Nat.div_eq_of_lt h2, Nat.mod_eq_of_lt h2]
  simp [Nat.digits_zero]

/-- Digit characters have digit codepoints. -/
theorem isDigit_charOfNat (d : Nat) (h : d < 10) : (Char.ofNat (48 + d)).isDigit = true := by
  rw [isDigit_iff, char_ofNat_toNat (48 + d) (by omega)]
  omega

/-- Every character natToChars produces is a digit. -/
theorem natToChars_all_digits (n : Nat) : ∀ c ∈ natToChars n, c.isDigit = true := by
  rw [natToChars_eq]
  by_cases hn : n = 0
  · simp [hn]
  · rw [if_neg hn]
    intro c hc
    rw [List.mem_map] at hc
    obtain ⟨d, hd, rfl⟩ := hc
    rw [List.mem_reverse] at hd
    exact isDigit_charOfNat d (Nat.digits_lt_base (by omega) hd)

/-- natToChars never returns the empty list. -/
theorem natToChars_ne_nil (n : Nat) : natToChars n ≠ [] := by
  rw [natToChars_eq]
  by_cases hn : n = 0
  · simp [hn]
  · rw [if_neg hn]
    simp [Nat.digits_ne_nil_iff_ne_zero, hn]

/-- Folding the parser's digit accumulator over a printed digit list recovers
the number (little-endian digits reversed, an accumulator in front). -/
theorem digitsToNat_foldl (ds : List Nat) (hd : ∀ d ∈ ds, d < 10) (a : Nat) :
    List.foldl (fun a c => a * 10 + (c.toNat - 48)) a
      ((ds.reverse.map (fun d => Char.ofNat (48 + d)))) =
      a * 10 ^ ds.length + Nat.ofDigits 10 ds := by
  induction ds generalizing a with
  | nil => simp
  | cons d tl ih =>
    have hdd : d < 10 := hd d (List.mem_cons_self d tl)
    have htl : ∀ x ∈ tl, x < 10 := fun x hx => hd x (List.mem_cons_of_mem d hx)
    rw [List.reverse_cons, List.map_append, List.foldl_append, ih htl a]
    simp only [List.map_cons, List.map_nil, List.foldl_cons, List.foldl_nil,
      Nat.ofDigits_cons, List.length_cons]
    rw [char_ofNat_toNat (48 + d) (by omega)]
    ring_nf
    omega

/-- Parsing back the decimal print of n yields n. -/
theorem digitsToNat_natToChars (n : Nat) : digitsToNat (natToChars n) = n := by
  rw [natToChars_eq]
  by_cases hn : n = 0
  · simp [hn, digitsToNat]
  · rw [if_neg hn]
    unfold digitsToNat
    rw [digitsToNat_foldl (Nat.digits 10 n) (fun d hd => Nat.digits_lt_base (by omega) hd) 0]
    simp [Nat.ofDigits_digits]

/-! ## FEN round trip (C2): piece placement -/

/-- The board parser stops as soon as 64 squares are filled. -/
theorem parseBoardChars_done (cs : List Char) (i : Nat) (acc : List (Option OccupiedSquare))
    (h : 64 ≤ i) : parseBoardChars cs i acc = some (acc, cs) := by
  rw [parseBoardChars.eq_def]
  dsimp only
  rw [if_pos h]

/-- Reading a blank-count digit advances the parser by that many empty
squares. -/
theorem parseBoardChars_digit (b j : Nat) (cs : List Char)
    (acc : List (Option OccupiedSquare)) (hb1 : 1 ≤ b) (hb9 : b < 10) (hj : j < 64) :
    parseBoardChars (natToChars b ++ cs) j acc =
      parseBoardChars cs (j + b) (acc ++ List.replicate b none) := by
  rw [natToChars_single b hb1 hb9, List.singleton_append, parseBoardChars.eq_def]
  dsimp only
  rw [if_neg (show ¬ 64 ≤ j by omega)]
  have hne : ¬ (Char.ofNat (48 + b) = '/' ∧ j % 8 = 0) := by
    rintro ⟨hc, -⟩
    have := congrArg Char.toNat hc
    rw [char_ofNat_toNat (48 + b) (by omega)] at this
    have : (48 + b) = 47 := this
    omega
  rw [if_neg hne, if_pos (isDigit_charOfNat b hb9)]
  rw [char_ofNat_toNat (48 + b) (by omega)]
  have h48 : 48 + b - 48 = b := by omega
  rw [h48]

/-- Reading a piece letter advances the parser by one occupied square. -/
theorem parseBoardChars_piece (o : OccupiedSquare) (j : Nat) (cs : List Char)
    (acc : List (Option OccupiedSquare)) (hj : j < 64) :
    parseBoardChars (occupancyToChar o :: cs) j acc =
      parseBoardChars cs (j + 1) (acc ++ [some o]) := by
  obtain ⟨pc, cc⟩ := o
  cases pc <;> cases cc <;>
  · rw [parseBoardChars.eq_def]
    dsimp only
    rw [if_neg (show ¬ 64 ≤ j by omega)]
    rw [if_neg (fun hand => absurd hand.1 (by decide)), if_neg (by decide)]
    rfl

/-- A rank separator at a rank start is skipped. -/
theorem parseBoardChars_slash (j : Nat) (cs : List Char)
    (acc : List (Option OccupiedSquare)) (hj : j < 64) (hmod : j % 8 = 0) :
    parseBoardChars ('/' :: cs) j acc = parseBoardChars cs j acc := by
  rw [parseBoardChars.eq_def]
  dsimp only
  rw [if_neg (show ¬ 64 ≤ j by omega)]
  rw [if_pos ⟨rfl, hmod⟩]

theorem parseBoard_roundtrip :
    ∀ (rest : List (Option OccupiedSquare)) (i blanks : Nat)
      (acc : List (Option OccupiedSquare)) (tail : List Char),
      i + rest.length = 64 → blanks ≤ i % 8 →
      parseBoardChars (boardFenAux rest i blanks ++ tail) (i - blanks) acc =
        some (acc ++ List.replicate blanks none ++ rest, tail) := by
  intro rest
  induction rest with
  | nil =>
    intro i blanks acc tail hlen hbl
    have hi : i = 64 := by simpa using hlen
    subst hi
    have hb0 : blanks = 0 := by omega
    subst hb0
    rw [boardFenAux.eq_def]
    simp [parseBoardChars_done tail 64 acc (le_refl 64)]
  | cons occ rest ih =>
    intro i blanks acc tail hlen hbl
    have hi : i < 64 := by
      simp only [List.length_cons] at hlen
      omega
    have hlen' : (i + 1) + rest.length = 64 := by
      simp only [List.length_cons] at hlen
      omega
    have hblanks7 : blanks ≤ 7 := by
      have := Nat.mod_lt i (show 0 < 8 by omega)
      omega
    have hbli : blanks ≤ i := le_trans hbl (Nat.mod_le i 8)
    rw [boardFenAux.eq_def]
    cases occ with
    | some o =>
      dsimp only
      rw [if_neg (show ¬ ((decide (i % 8 = 7)) = true ∧ 0 < 0) by simp)]
      suffices hcont : parseBoardChars
          ((if (decide (i % 8 = 7)) = true ∧ (7 - (i : Int) / 8) ≠ 0 then ['/'] else []) ++
            (boardFenAux rest (i + 1) 0 ++ tail)) (i + 1)
          (acc ++ List.replicate blanks none ++ [some o]) =
          some (acc ++ (List.replicate blanks none ++ some o :: rest), tail) by
        by_cases hb : 0 < blanks
        · rw [if_pos hb]
          simp only [List.append_nil, List.append_assoc, List.singleton_append, ite_self]
          rw [parseBoardChars_digit blanks (i - blanks) _ acc hb (by omega) (by omega)]
          rw [show i - blanks + blanks = i from by omega]
          rw [List.cons_append]
          rw [parseBoardChars_piece o i _ _ hi]
          exact hcont
        · rw [if_neg hb]
          have hb0 : blanks = 0 := by omega
          subst hb0
          simp only [List.append_nil, List.nil_append, List.append_assoc,
            List.singleton_append, List.replicate_zero, Nat.sub_zero, ite_self] at hcont ⊢
          rw [List.cons_append]
          rw [parseBoardChars_piece o i _ _ hi]
          simpa using hcont
      by_cases hsl : (decide (i % 8 = 7)) = true ∧ (7 - (i : Int) / 8) ≠ 0
      · rw [if_pos hsl, List.singleton_append]
        have h7 : i % 8 = 7 := by simpa using hsl.1
        have hmod : (i + 1) % 8 = 0 := by omega
        have hlt : i + 1 < 64 := by
          rcases Nat.lt_or_ge i 56 with hlt56 | hge56
          · omega
          · exfalso
            apply hsl.2
            have h1 : (56 : Int) ≤ (i : Int) := by exact_mod_cast hge56
            have h2 : (i : Int) < 64 := by exact_mod_cast hi
            omega
        rw [parseBoardChars_slash (i + 1) _ _ hlt hmod]
        have := ih (i + 1) 0 (acc ++ List.replicate blanks none ++ [some o]) tail hlen' (by omega)
        rw [Nat.sub_zero] at this
        rw [this]
        simp [List.append_assoc]
      · rw [if_neg hsl, List.nil_append]
        have := ih (i + 1) 0 (acc ++ List.replicate blanks none ++ [some o]) tail hlen' (by omega)
        rw [Nat.sub_zero] at this
        rw [this]
        simp [List.append_assoc]
    | none =>
      dsimp only
      by_cases hmod : i % 8 = 7
      · have hcond : (decide (i % 8 = 7)) = true ∧ 0 < blanks + 1 := ⟨by simp [hmod], by omega⟩
        rw [if_pos hcond, if_pos hcond]
        simp only [List.nil_append, List.append_assoc]
        rw [parseBoardChars_digit (blanks + 1) (i - blanks) _ acc (by omega) (by omega) (by omega)]
        rw [show i - blanks + (blanks + 1) = i + 1 from by omega]
        by_cases hsl : (decide (i % 8 = 7)) = true ∧ (7 - (i : Int) / 8) ≠ 0
        · rw [if_pos hsl, List.singleton_append]
          have hmod1 : (i + 1) % 8 = 0 := by omega
          have hlt : i + 1 < 64 := by
            rcases Nat.lt_or_ge i 56 with hlt56 | hge56
            · omega
            · exfalso
              apply hsl.2
              have h1 : (56 : Int) ≤ (i : Int) := by exact_mod_cast hge56
              have h2 : (i : Int) < 64 := by exact_mod_cast hi
              omega
          rw [parseBoardChars_slash (i + 1) _ _ hlt hmod1]
          have := ih (i + 1) 0 (acc ++ List.replicate (blanks + 1) none) tail hlen' (by omega)
          rw [Nat.sub_zero] at this
          rw [this]
          rw [List.replicate_succ']
          simp [List.append_assoc]
        · rw [if_neg hsl, List.nil_append]
          have := ih (i + 1) 0 (acc ++ List.replicate (blanks + 1) none) tail hlen' (by omega)
          rw [Nat.sub_zero] at this
          rw [this]
          rw [List.replicate_succ']
          simp [List.append_assoc]
      · have hcondneg : ¬ ((decide (i % 8 = 7)) = true ∧ 0 < blanks + 1) :=
          fun hand => hmod (by simpa using hand.1)
        have hcondneg2 : ¬ ((decide (i % 8 = 7)) = true ∧ (7 - (i : Int) / 8) ≠ 0) :=
          fun hand => hmod (by simpa using hand.1)
        rw [if_neg hcondneg, if_neg hcondneg, if_neg hcondneg2]
        simp only [List.nil_append]
        have := ih (i + 1) (blanks + 1) acc tail hlen' (by omega)
        rw [show (i + 1) - (blanks + 1) = i - blanks from by omega] at this
        rw [this]
        rw [List.replicate_succ']
        simp [List.append_assoc]

/-! ## FEN round trip (C2): the remaining fields -/

/-- The castling serialization parses back to the four flags. -/
theorem parseCastling_roundtrip (wk wq bk bq : Bool) (rest : List Char) :
    parseCastlingChars
      ((let cc := (if wk then ['K'] else []) ++ (if wq then ['Q'] else []) ++
          (if bk then ['k'] else []) ++ (if bq then ['q'] else [])
        if cc = [] then ['-'] else cc) ++ ' ' :: rest) false false false false =
      some ((wk, wq, bk, bq), rest) := by
  cases wk <;> cases wq <;> cases bk <;> cases bq <;>
    simp [parseCastlingChars]

/-- A printed en-passant square is two characters, the first alphabetic, and
Square::from_notation reads the pair back (source ranks 1..8, files 0..7). -/
theorem ep_roundtrip (sq : Square) (h1 : 1 ≤ sq.rank) (h2 : sq.rank ≤ 8)
    (h3 : 0 ≤ sq.file) (h4 : sq.file ≤ 7) :
    ∃ c1 c2, (sq.toStr SquareStrOptions.fileAndRank).toList = [c1, c2] ∧
      c1.isAlpha = true ∧ Square.fromStr (String.mk [c1, c2]) = some sq := by
  obtain ⟨r, f⟩ := sq
  dsimp only at *
  interval_cases r <;> interval_cases f <;> exact ⟨_, _, rfl, by decide, by decide⟩

/-- The digit collector consumes exactly an all-digit chunk up to a space. -/
theorem parseDigitsUntilSpace_digits (cs : List Char) (hd : ∀ c ∈ cs, c.isDigit = true) :
    ∀ (acc rest : List Char),
      parseDigitsUntilSpace (cs ++ ' ' :: rest) acc = some (acc ++ cs, rest) := by
  induction cs with
  | nil =>
    intro acc rest
    simp [parseDigitsUntilSpace]
  | cons c tl ih =>
    intro acc rest
    rw [List.cons_append, parseDigitsUntilSpace,
      if_pos (hd c (List.mem_cons_self c tl))]
    rw [ih (fun x hx => hd x (List.mem_cons_of_mem c hx)) (acc ++ [c]) rest]
    simp

/-- The end-of-string digit collector consumes exactly an all-digit chunk. -/
theorem parseDigitsUntilEnd_digits (cs : List Char) (hd : ∀ c ∈ cs, c.isDigit = true) :
    ∀ acc : List Char, parseDigitsUntilEnd cs acc = some (acc ++ cs) := by
  induction cs with
  | nil =>
    intro acc
    simp [parseDigitsUntilEnd]
  | cons c tl ih =>
    intro acc
    rw [parseDigitsUntilEnd, if_pos (hd c (List.mem_cons_self c tl))]
    rw [ih (fun x hx => hd x (List.mem_cons_of_mem c hx)) (acc ++ [c])]
    simp

/-- Parsing back a printed clock value. -/
theorem parseClock_natToChars (n : Nat) : parseClock (natToChars n) = some (n : Int) := by
  rw [parseClock, if_neg (natToChars_ne_nil n), digitsToNat_natToChars]

/-- A non-negative Int prints as its Nat decimal. -/
theorem intToChars_nonneg (i : Int) (h : 0 ≤ i) : intToChars i = natToChars i.toNat := by
  rw [intToChars, if_neg (by omega)]
/-- The castling serialization, in the right-associated list shape the main
proof sees, parses back to the four flags. -/
theorem parseCastling_roundtrip' (wk wq bk bq : Bool) (rest : List Char) :
    parseCastlingChars
      ((if (if wk then ['K'] else []) ++ ((if wq then ['Q'] else []) ++
            ((if bk then ['k'] else []) ++ (if bq then ['q'] else []))) = []
        then ['-']
        else (if wk then ['K'] else []) ++ ((if wq then ['Q'] else []) ++
            ((if bk then ['k'] else []) ++ (if bq then ['q'] else [])))) ++
        (' ' :: rest)) false false false false = some ((wk, wq, bk, bq), rest) := by
  cases wk <;> cases wq <;> cases bk <;> cases bq <;> simp [parseCastlingChars]

/-- Expecting the character that is there consumes it. -/
theorem expectChar_cons (c : Char) (rest : List Char) : expectChar c (c :: rest) = some rest := by
  simp [expectChar]

/-- The side-to-move parser on w. -/
theorem parseColorChar_w (r : List Char) : parseColorChar ('w' :: r) = some (Color.white, r) := by
  simp [parseColorChar]

/-- The side-to-move parser on b. -/
theorem parseColorChar_b (r : List Char) : parseColorChar ('b' :: r) = some (Color.black, r) := by
  simp [parseColorChar]

/-- The en-passant parser on a dash. -/
theorem parseEp_dash (r : List Char) : parseEnPassantChars ('-' :: r) = some (none, r) := by
  simp [parseEnPassantChars]

/-- The en-passant parser on a printed square. -/
theorem parseEp_square (c1 c2 : Char) (r : List Char) (sq : Square)
    (halpha : c1.isAlpha = true) (hback : Square.fromStr (String.mk [c1, c2]) = some sq) :
    parseEnPassantChars (c1 :: c2 :: r) = some (some sq, r) := by
  simp [parseEnPassantChars, halpha, hback]

/-- C2: for a canonical FEN string f - one produced by Position::to_fen from
a Position of the kind reachable through normal play (64 board squares, an
en-passant target with rank in [1,8] and file in [0,7] when present -
reachable targets have rank 2 or 5 - and non-negative clocks) - parsing f
succeeds and returns that very Position, so serializing the parse result
returns f unchanged: to_fen(from_fen(f)) = f. -/
theorem fen_round_trip (p : Position)
    (hlen : p.board.squares.length = 64)
    (hep : ∀ sq, p.en_passant_square = some sq →
      1 ≤ sq.rank ∧ sq.rank ≤ 8 ∧ 0 ≤ sq.file ∧ sq.file ≤ 7)
    (hhalf : 0 ≤ p.half_move_clock) (hfull : 0 ≤ p.full_move_counter) :
    Position.from_fen (Position.to_fen p) = some p := by
  obtain ⟨⟨squares⟩, ntm, wk, wq, bk, bq, ep, half, full⟩ := p
  dsimp only at hlen hep hhalf hfull
  unfold Position.to_fen Position.from_fen
  dsimp only
  simp only [List.append_assoc, List.cons_append, List.nil_append]
  dsimp only [String.toList]
  rw [intToChars_nonneg half hhalf, intToChars_nonneg full hfull]
  rw [parseBoard_roundtrip squares 0 0 [] _ (by simpa using hlen) (by omega)]
  simp only [Option.bind_eq_bind, Option.some_bind, List.nil_append, List.replicate_zero]
  rw [expectChar_cons]
  simp only [Option.some_bind]
  cases ntm <;>
  · first
    | rw [parseColorChar_w]
    | rw [parseColorChar_b]
    simp only [Option.some_bind]
    rw [expectChar_cons]
    simp only [Option.some_bind]
    rw [parseCastling_roundtrip']
    simp only [Option.some_bind]
    cases ep with
    | none =>
      dsimp only
      simp only [List.singleton_append]
      rw [parseEp_dash]
      simp only [Option.some_bind]
      rw [expectChar_cons]
      simp only [Option.some_bind]
      rw [parseDigitsUntilSpace_digits (natToChars half.toNat) (natToChars_all_digits _) [] _]
      simp only [Option.some_bind, List.nil_append]
      rw [parseClock_natToChars]
      simp only [Option.some_bind]
      rw [parseDigitsUntilEnd_digits (natToChars full.toNat) (natToChars_all_digits _) []]
      simp only [Option.some_bind, List.nil_append]
      rw [parseClock_natToChars]
      simp only [Option.some_bind]
      rw [Int.toNat_of_nonneg hhalf, Int.toNat_of_nonneg hfull]
      rfl
    | some sq =>
      dsimp only
      obtain ⟨hr1, hr2, hf1, hf2⟩ := hep sq rfl
      obtain ⟨c1, c2, hlist, halpha, hback⟩ := ep_roundtrip sq hr1 hr2 hf1 hf2
      have hdata : (sq.toStr SquareStrOptions.fileAndRank).data = [c1, c2] := hlist
      rw [hdata, List.cons_append, List.cons_append, List.nil_append]
      rw [parseEp_square c1 c2 _ sq halpha hback]
      simp only [Option.some_bind]
      rw [expectChar_cons]
      simp only [Option.some_bind]
      rw [parseDigitsUntilSpace_digits (natToChars half.toNat) (natToChars_all_digits _) [] _]
      simp only [Option.some_bind, List.nil_append]
      rw [parseClock_natToChars]
      simp only [Option.some_bind]
      rw [parseDigitsUntilEnd_digits (natToChars full.toNat) (natToChars_all_digits _) []]
      simp only [Option.some_bind, List.nil_append]
      rw [parseClock_natToChars]
      simp only [Option.some_bind]
      rw [Int.toNat_of_nonneg hhalf, Int.toNat_of_nonneg hfull]
      rfl

/-- Witness for C2 at a concrete input: the standard initial position. -/
theorem fen_round_trip_witness :
    (Game.standard_position.board.squares.length = 64 ∧
     0 ≤ Game.standard_position.half_move_clock ∧
     0 ≤ Game.standard_position.full_move_counter) ∧
    Position.from_fen (Position.to_fen Game.standard_position) =
      some Game.standard_position :=
  ⟨⟨by decide, by decide, by decide⟩,
    fen_round_trip Game.standard_position (by decide)
      (fun sq h => by
        rw [show Game.standard_position.en_passant_square = none from by rfl] at h
        exact Option.noConfusion h)
      (by decide) (by decide)⟩
